import Mathlib

/-!
Verification development for the dash-doc-updater repository.

The Python sources are shallowly embedded as executable Lean definitions:
pure computations become Lean functions, the mutable object state of the
updaters becomes explicit state records, the external build process becomes
an explicit exit-code/stdout/stderr input, and Python exceptions become
`Option`/`Except` results.  Each definition carries a doc comment naming the
source function it embeds.
-/

/-! ## Version parsing (doc.py `Version`, backed by `pkg_resources.parse_version`)

`Version.__init__` stores the raw string and the parsed PEP 440 version
object.  We embed the parsed object as `PyVersion` (epoch, release segments,
pre-release, post-release, dev segment; local version segments are not used
by this repository and parsing rejects them), and the PEP 440 comparison key
as an injective encoding into `List Int` compared lexicographically. -/

structure PyVersion where
  epoch : Nat
  release : List Nat
  pre : Option (Nat × Nat)
  post : Option Nat
  dev : Option Nat
  deriving DecidableEq

def isWsC (c : Char) : Bool := c = ' ' || c = '\t' || c = '\n' || c = '\r'

def digitVal (c : Char) : Nat := c.toNat - '0'.toNat

def natOfDigits (ds : List Char) : Nat := ds.foldl (fun a c => a * 10 + digitVal c) 0

def takeDigits (cs : List Char) : List Char × List Char :=
  (cs.takeWhile Char.isDigit, cs.dropWhile Char.isDigit)

def takeAlphas (cs : List Char) : List Char × List Char :=
  (cs.takeWhile Char.isAlpha, cs.dropWhile Char.isAlpha)

def isSepC (c : Char) : Bool := c = '-' || c = '_' || c = '.'

/-- Drop at most one PEP 440 separator character. -/
def dropSep (cs : List Char) : List Char :=
  match cs with
  | c :: r => if isSepC c then r else cs
  | [] => []

/-- Parse the remaining `.N` release segments (fuel-driven, fuel = length). -/
def parseDots : Nat → List Char → List Nat → List Nat × List Char
  | 0, cs, acc => (acc, cs)
  | fuel+1, cs, acc =>
    match cs with
    | '.' :: rest =>
      let (ds, r) := takeDigits rest
      if ds.isEmpty then (acc, cs) else parseDots fuel r (acc ++ [natOfDigits ds])
    | _ => (acc, cs)

/-- PEP 440 pre-release spellings with their normalized phase (a=0, b=1, rc=2). -/
def preSpellings : List (List Char × Nat) :=
  [("a".data, 0), ("alpha".data, 0), ("b".data, 1), ("beta".data, 1),
   ("c".data, 2), ("pre".data, 2), ("preview".data, 2), ("rc".data, 2)]

def postSpellings : List (List Char) := ["post".data, "rev".data, "r".data]

/-- Parse an optional PEP 440 pre-release segment. -/
def parsePre (cs : List Char) : Option (Nat × Nat) × List Char :=
  let cs1 := dropSep cs
  let (w, r) := takeAlphas cs1
  match List.lookup w preSpellings with
  | some phase =>
    let r2 := dropSep r
    let (ds, r3) := takeDigits r2
    (some (phase, natOfDigits ds), r3)
  | none => (none, cs)

/-- Parse an optional spelled-out PEP 440 post-release segment. -/
def parsePostWord (cs : List Char) : Option Nat × List Char :=
  let cs1 := dropSep cs
  let (w, r) := takeAlphas cs1
  if postSpellings.contains w then
    let r2 := dropSep r
    let (ds, r3) := takeDigits r2
    (some (natOfDigits ds), r3)
  else (none, cs)

/-- Parse an optional PEP 440 post-release segment (`-N` or `.postN` forms). -/
def parsePost (cs : List Char) : Option Nat × List Char :=
  match cs with
  | '-' :: rest =>
    let (ds, r) := takeDigits rest
    if ds.isEmpty then parsePostWord cs else (some (natOfDigits ds), r)
  | _ => parsePostWord cs

/-- Parse an optional PEP 440 dev segment. -/
def parseDev (cs : List Char) : Option Nat × List Char :=
  let cs1 := dropSep cs
  let (w, r) := takeAlphas cs1
  if w = "dev".data then
    let r2 := dropSep r
    let (ds, r3) := takeDigits r2
    (some (natOfDigits ds), r3)
  else (none, cs)

/-- Embedding of `pkg_resources.parse_version` as used by `Version.__init__`
(doc.py lines 16-21): parse a PEP 440 version string (case-insensitive,
optional leading `v`, optional epoch, release segments, optional
pre/post/dev segments).  A string that cannot be decomposed into these
segments yields `none`, modelling the `InvalidVersion` exception. -/
def parse_version (s : String) : Option PyVersion :=
  let cs0 := s.data.map Char.toLower
  let cs1 := (((cs0.dropWhile isWsC).reverse).dropWhile isWsC).reverse
  let cs2 := match cs1 with
    | 'v' :: r => r
    | _ => cs1
  let (eds, er) := takeDigits cs2
  let (epoch, csR) : Nat × List Char :=
    match er with
    | '!' :: rest => if eds.isEmpty then (0, cs2) else (natOfDigits eds, rest)
    | _ => (0, cs2)
  let (rds, r1) := takeDigits csR
  if rds.isEmpty then none
  else
    let (rel, r2) := parseDots r1.length r1 [natOfDigits rds]
    let (pre, r3) := parsePre r2
    let (post, r4) := parsePost r3
    let (dev, r5) := parseDev r4
    if r5.isEmpty then some ⟨epoch, rel, pre, post, dev⟩ else none

/-- Embedding of the `Version` class (doc.py lines 16-52): the raw string
(`self.name`) together with the parsed version object (`self.version`). -/
structure Version where
  name : String
  version : PyVersion
  deriving DecidableEq

/-- The `Version(raw)` constructor: `none` models the parse exception. -/
def Version.mk? (s : String) : Option Version :=
  (parse_version s).map (fun p => { name := s, version := p })

/-- `Version.is_stable` (doc.py lines 23-25): `not is_prerelease and not
is_postrelease`, where per packaging `is_prerelease` holds iff a dev or pre
segment is present and `is_postrelease` iff a post segment is present. -/
def Version.is_stable (v : Version) : Bool :=
  v.version.pre.isNone && v.version.post.isNone && v.version.dev.isNone

/-! ### The PEP 440 comparison key

packaging's `_cmpkey` compares (epoch, release with trailing zeros removed,
pre-key, post-key, dev-key).  We encode this key injectively into `List Int`:
the release list is terminated by `-1` (below every release segment), and the
pre/post/dev components are two-element blocks where `-10` encodes negative
infinity and `10` positive infinity. -/

def stripTrailingZeros (l : List Nat) : List Nat :=
  ((l.reverse).dropWhile (fun n => n == 0)).reverse

def preEnc (v : PyVersion) : List Int :=
  match v.pre with
  | some (ph, n) => [Int.ofNat ph, Int.ofNat n]
  | none => if v.post.isNone && v.dev.isSome then [-10, 0] else [10, 0]

def postEnc (v : PyVersion) : List Int :=
  match v.post with
  | some n => [0, Int.ofNat n]
  | none => [-10, 0]

def devEnc (v : PyVersion) : List Int :=
  match v.dev with
  | some n => [0, Int.ofNat n]
  | none => [10, 0]

/-- The flattened PEP 440 comparison key of a parsed version. -/
def kflat (v : PyVersion) : List Int :=
  (Int.ofNat v.epoch :: (stripTrailingZeros v.release).map Int.ofNat)
    ++ [-1] ++ preEnc v ++ postEnc v ++ devEnc v

/-- Lexicographic comparison of flattened keys (shorter prefix is smaller). -/
def lexCmp : List Int → List Int → Ordering
  | [], [] => .eq
  | [], _ :: _ => .lt
  | _ :: _, [] => .gt
  | a :: as, b :: bs => if a < b then .lt else if b < a then .gt else lexCmp as bs

/-- The total order on parsed versions used by every `Version` comparison. -/
def vcmp (a b : PyVersion) : Ordering := lexCmp (kflat a) (kflat b)

/-- `Version.__lt__` (doc.py line 36-37): strict comparison of parsed keys. -/
def Version.lt (a b : Version) : Bool := vcmp a.version b.version == .lt

/-- `Version.__eq__` (doc.py lines 42-43): equality of parsed keys, never of
raw strings. -/
def Version.eq (a b : Version) : Bool := kflat a.version == kflat b.version

/-- Python's `version in processed_versions` membership test, which compares
elements with `Version.__eq__`. -/
def containsVersion (l : List Version) (v : Version) : Bool :=
  l.any (fun p => Version.eq p v)

/-! ### Order lemmas for the flattened comparison key -/

theorem lexCmp_self (l : List Int) : lexCmp l l = .eq := by
  induction l with
  | nil => rfl
  | cons a as ih => simp [lexCmp, ih]

theorem lexCmp_eq_iff : ∀ {a b : List Int}, lexCmp a b = .eq ↔ a = b := by
  intro a
  induction a with
  | nil => intro b; cases b <;> simp [lexCmp]
  | cons x xs ih =>
    intro b
    cases b with
    | nil => simp [lexCmp]
    | cons y ys =>
      simp only [lexCmp]
      split_ifs with h1 h2
      · simp only [List.cons.injEq]
        constructor
        · intro h; exact absurd h (by decide)
        · rintro ⟨h, -⟩; omega
      · simp only [List.cons.injEq]
        constructor
        · intro h; exact absurd h (by decide)
        · rintro ⟨h, -⟩; omega
      · have hxy : x = y := by omega
        subst hxy
        rw [ih]
        simp

theorem lexCmp_swap : ∀ (a b : List Int), lexCmp b a = (lexCmp a b).swap := by
  intro a
  induction a with
  | nil => intro b; cases b <;> rfl
  | cons x xs ih =>
    intro b
    cases b with
    | nil => rfl
    | cons y ys =>
      by_cases h1 : x < y
      · have h2 : ¬ y < x := by omega
        simp [lexCmp, h1, h2, Ordering.swap]
      · by_cases h2 : y < x
        · simp [lexCmp, h1, h2, Ordering.swap]
        · simp [lexCmp, h1, h2, ih ys]

theorem lexCmp_lt_trans :
    ∀ {a b c : List Int}, lexCmp a b = .lt → lexCmp b c = .lt → lexCmp a c = .lt := by
  intro a
  induction a with
  | nil =>
    intro b c hab hbc
    cases b with
    | nil => simp [lexCmp] at hab
    | cons y ys =>
      cases c with
      | nil => simp [lexCmp] at hbc
      | cons z zs => rfl
  | cons x xs ih =>
    intro b c hab hbc
    cases b with
    | nil => simp [lexCmp] at hab
    | cons y ys =>
      cases c with
      | nil => simp [lexCmp] at hbc
      | cons z zs =>
        simp only [lexCmp] at hab hbc ⊢
        by_cases h1 : x < y
        · by_cases h3 : y < z
          · rw [if_pos (show x < z by omega)]
          · by_cases h4 : z < y
            · rw [if_neg h3, if_pos h4] at hbc; exact absurd hbc (by decide)
            · rw [if_pos (show x < z by omega)]
        · by_cases h2 : y < x
          · rw [if_neg h1, if_pos h2] at hab; exact absurd hab (by decide)
          · rw [if_neg h1, if_neg h2] at hab
            by_cases h3 : y < z
            · rw [if_pos (show x < z by omega)]
            · by_cases h4 : z < y
              · rw [if_neg h3, if_pos h4] at hbc; exact absurd hbc (by decide)
              · rw [if_neg h3, if_neg h4] at hbc
                rw [if_neg (show ¬ x < z by omega), if_neg (show ¬ z < x by omega)]
                exact ih hab hbc

/-- The reflexive order on `Version` induced by the parsed comparison key;
`a` may precede `b` in a Python ascending sort iff `not (b < a)`. -/
def verLE (a b : Version) : Prop := vcmp a.version b.version ≠ .gt

instance : DecidableRel verLE := fun a b => by unfold verLE; infer_instance

instance : IsTotal Version verLE := by
  constructor
  intro a b
  unfold verLE vcmp
  by_cases h : lexCmp (kflat a.version) (kflat b.version) = .gt
  · right; rw [lexCmp_swap, h]; decide
  · left; exact h

instance : IsTrans Version verLE := by
  constructor
  intro a b c hab hbc
  unfold verLE vcmp at *
  intro hac
  rcases h1 : lexCmp (kflat a.version) (kflat b.version) with _ | _ | _
  · rcases h2 : lexCmp (kflat b.version) (kflat c.version) with _ | _ | _
    · exact absurd hac (by rw [lexCmp_lt_trans h1 h2]; decide)
    · have : kflat b.version = kflat c.version := lexCmp_eq_iff.mp h2
      rw [← this] at hac
      exact absurd hac (by rw [h1]; decide)
    · exact hbc h2
  · have : kflat a.version = kflat b.version := lexCmp_eq_iff.mp h1
    rw [this] at hac
    exact hbc hac
  · exact hab h1

theorem verLE_refl (a : Version) : verLE a a := by
  unfold verLE vcmp
  rw [lexCmp_self]
  decide

/-- Python's stable ascending `sorted` on `Version` lists, which compares
with `Version.__lt__` (doc.py line 270, line 146, updater.py line 116). -/
def sortV (l : List Version) : List Version := List.insertionSort verLE l

/-- In a list sorted by a reflexive relation, every element is related to the
last element. -/
theorem sorted_rel_getLast {α : Type} {r : α → α → Prop} (hrefl : ∀ x, r x x) :
    ∀ (l : List α) (h : l ≠ []) (x : α), x ∈ l → List.Sorted r l → r x (l.getLast h) := by
  intro l
  induction l with
  | nil => intro h; exact absurd rfl h
  | cons a t ih =>
    intro h x hx hs
    cases t with
    | nil =>
      rcases List.mem_cons.mp hx with rfl | hx2
      · exact hrefl x
      · exact absurd hx2 (List.not_mem_nil x)
    | cons b t2 =>
      rw [List.getLast_cons (by simp : (b :: t2) ≠ [])]
      rcases List.mem_cons.mp hx with rfl | hx2
      · exact List.rel_of_sorted_cons hs _ (List.getLast_mem _)
      · exact ih (by simp) x hx2 hs.of_cons

/-! ## Tag discovery (doc.py `TagUpdater.check_updates`, packer.py `Packer`) -/

/-- Model of Python `str.replace(pat, "")`: delete every occurrence of `pat`
(fuel-driven, fuel = input length). -/
def replaceAllAux (p : List Char) : Nat → List Char → List Char
  | 0, s => s
  | fuel+1, s =>
    match s with
    | [] => []
    | c :: cs =>
      if !p.isEmpty && List.isPrefixOf p (c :: cs) then
        replaceAllAux p fuel ((c :: cs).drop p.length)
      else c :: replaceAllAux p fuel cs

def replaceAll (s : String) (p : String) : String :=
  ⟨replaceAllAux p.data s.data.length s.data⟩

/-- The `tag_prefix` constant `refs/tags/` of `TagUpdater.check_updates`
(doc.py line 246) and `Kubernetes.check_updates` (kubernetes.py line 84). -/
def tagRefsMarker : String := "refs/tags/"

/-- Python `re.compile("^refs/tags/").match r` as a prefix test. -/
def strStartsWith (p s : String) : Bool := List.isPrefixOf p.data s.data

/-- `TagUpdater.normalize_tag` (doc.py lines 230-237): the base class returns
the tag unchanged. -/
def TagUpdater.normalize_tag (tag : String) : String := tag

/-- `Packer.normalize_tag` (packer.py lines 16-21): strip one leading `v`. -/
def Packer.normalize_tag (tag : String) : String :=
  match tag.data with
  | c :: cs => if c = 'v' then ⟨cs⟩ else tag
  | [] => tag

/-- The per-tag loop of `TagUpdater.check_updates` (doc.py lines 249-267):
strip the `refs/tags/` marker, normalize, parse (a parse failure raises, so
it aborts the whole loop: modelled as `Except.error` carrying the offending
normalized tag), then drop tags below the minimum version, unstable tags when
stability is required, and tags already in the processed ledger. -/
def checkTagsGo (normalize : String → String) (minimum_version : Version)
    (stable_version : Bool) (processed_versions : List Version) :
    List String → List Version → Except String (List Version)
  | [], acc => .ok acc
  | t :: ts, acc =>
    let tag := normalize (replaceAll t tagRefsMarker)
    match Version.mk? tag with
    | none => .error tag
    | some version =>
      if Version.lt version minimum_version then
        checkTagsGo normalize minimum_version stable_version processed_versions ts acc
      else if stable_version && !version.is_stable then
        checkTagsGo normalize minimum_version stable_version processed_versions ts acc
      else if containsVersion processed_versions version then
        checkTagsGo normalize minimum_version stable_version processed_versions ts acc
      else
        checkTagsGo normalize minimum_version stable_version processed_versions ts
          (acc ++ [version])

/-- `TagUpdater.check_updates` (doc.py lines 239-270): filter the repository
references to tag references, run the per-tag loop, and sort the surviving
candidates ascending.  The repository and fetch are external; the reference
list is the input. -/
def TagUpdater.check_updates (normalize : String → String) (minimum_version : Version)
    (stable_version : Bool) (processed_versions : List Version) (refs : List String) :
    Except String (List Version) :=
  (checkTagsGo normalize minimum_version stable_version processed_versions
      (refs.filter (fun r => strStartsWith tagRefsMarker r)) []).map sortV

/-! ## Ledger persistence (doc.py `ProcessedVersions`, kubernetes.py) -/

/-- `yaml.dump({"versions": names}, default_flow_style=False)`. -/
def yaml_dump_versions (names : List String) : String :=
  "versions:\n" ++ String.join (names.map (fun n => "- " ++ n ++ "\n"))

/-- `ProcessedVersions.save_processed_versions` (doc.py lines 141-148): the
ledger file content written, i.e. the processed set serialized with the
version names sorted ascending by the parsed comparison key. -/
def ProcessedVersions.save_processed_versions (processed_versions : List Version) : String :=
  yaml_dump_versions ((sortV processed_versions).map Version.name)

/-- `Kubernetes._save_versions` (kubernetes.py lines 68-72): the ledger file
content written by the Kubernetes updater, i.e. the version names in their
in-memory order, without sorting. -/
def Kubernetes.save_versions (processed_versions : List Version) : String :=
  yaml_dump_versions (processed_versions.map Version.name)

/-- The file contents observable by a reader at each point during
`open(file, "w")` followed by a sequential write (the write path of both
`save_processed_versions` and `_save_versions`): the old content before the
`open`, the empty file right after the `open` truncates, and each prefix of
the new content as the write progresses. -/
def truncateWriteStates (old new : List Char) : List (List Char) :=
  old :: (List.range (new.length + 1)).map (fun k => new.take k)

/-! ## Build orchestration (doc.py `Documentation`, `BaseBuilder`) -/

/-- The mutable state of a `BaseBuilder` object plus its ledger file: `path`
(generator root, as path components), `build_folder`, `doc_name`, the
in-memory `processed_versions` list, and the persisted ledger file content. -/
structure BuilderState where
  path : List String
  build_folder : String
  doc_name : String
  processed_versions : List Version
  ledger_file : String
  deriving DecidableEq

/-- The outcome of `subprocess.run` for one build command. -/
structure ProcessResult where
  returncode : Int
  stdout : String
  stderr : String
  deriving DecidableEq

/-- `BaseBuilder.build_version` (doc.py lines 302-338): on exit code 0 append
the version to `processed_versions`, rewrite the ledger file, and return the
artifact path `path/build_folder/version.name/doc_name`; on any other exit
code leave both untouched, return no path, and surface the captured stdout
and stderr as diagnostics. -/
def BaseBuilder.build_version (st : BuilderState) (version : Version)
    (process : ProcessResult) : BuilderState × Option (List String) × List String :=
  if process.returncode = 0 then
    let processed := st.processed_versions ++ [version]
    ({ st with
        processed_versions := processed,
        ledger_file := ProcessedVersions.save_processed_versions processed },
      some (st.path ++ [st.build_folder, version.name, st.doc_name]), [])
  else
    (st, none, [process.stdout, process.stderr])

/-- `Documentation.update` (doc.py lines 96-108) specialized to a stateless
build function: build each pending version and collect the successful
`(version, path)` pairs in order. -/
def Documentation.update (versions : List Version)
    (build_version : Version → Option (List String)) : List (Version × List String) :=
  versions.foldl
    (fun updated version =>
      match build_version version with
      | some path => updated ++ [(version, path)]
      | none => updated)
    []

/-- The body of the abstract `Documentation.build_version` (doc.py lines
87-94): `pass`, i.e. it returns `None` for every version. -/
def Documentation.build_version_default : Version → Option (List String) := fun _ => none

/-- The abstract methods declared by `Documentation` (doc.py lines 75-94):
the `name` property, `check_updates`, and `build_version`. -/
def documentationAbstractMethods : List String := ["name", "check_updates", "build_version"]

/-- The methods `Kubernetes` defines (kubernetes.py lines 11-138). -/
def kubernetesDefinedMethods : List String :=
  ["__init__", "_load_versions", "_initialize_repo", "_save_versions",
   "check_updates", "update_version"]

/-- The abstract methods of `Documentation` that `Kubernetes` leaves
unimplemented; Python's ABC machinery raises `TypeError` on instantiation
whenever this list is nonempty. -/
def kubernetesUnimplementedAbstract : List String :=
  documentationAbstractMethods.filter (fun m => !(kubernetesDefinedMethods.contains m))

/-! ## The Terraform updater (terraform.py) -/

/-- The mutable state of a `Terraform` object: the pending `self.versions`
list inherited from `Documentation`, plus the builder/ledger state. -/
structure TerraformState where
  versions : List Version
  builder : BuilderState
  deriving DecidableEq

/-- `Terraform.check_updates` (terraform.py lines 18-46): the content-derived
candidate `derived` (the version string extracted from `content/config.rb`)
replaces `self.versions` unless it is already in the ledger, in which case
the method returns early and `self.versions` keeps its previous value. -/
def Terraform.check_updates (derived : Version) (st : TerraformState) : TerraformState :=
  if containsVersion st.builder.processed_versions derived then st
  else { st with versions := [derived] }

/-- `Documentation.update` as executed by a `Terraform` object (doc.py lines
96-108 with terraform.py's `check_updates` and `BaseBuilder.build_version`):
run `check_updates`, then build every version in `self.versions`, threading
the builder state and collecting the successful pairs. -/
def Terraform.update (derived : Version) (exit_codes : Version → Int)
    (st : TerraformState) : List (Version × List String) × TerraformState :=
  let st1 := Terraform.check_updates derived st
  st1.versions.foldl
    (fun acc version =>
      let r := BaseBuilder.build_version acc.2.builder version ⟨exit_codes version, "", ""⟩
      match r.2.1 with
      | some path => (acc.1 ++ [(version, path)], { acc.2 with builder := r.1 })
      | none => (acc.1, { acc.2 with builder := r.1 }))
    ([], st1)

/-! ## The docset merger (updater.py `Dash`) -/

/-- One element of the manifest's `specific_versions` list. -/
structure SVEntry where
  version : String
  archive : String
  deriving DecidableEq

/-- The docset.json manifest object: the current-version field `version`
(absent or a raw string) and the `specific_versions` list. -/
structure DocsetJson where
  version : Option String
  specific_versions : List SVEntry
  deriving DecidableEq

/-- The sort key `Version(k["version"])` of `Dash.append_version` (updater.py
lines 92-95) as a flattened comparison key.  The source raises on an
unparsable entry; the key is totalized with `[]` here and is only relied on
for parsable entries. -/
def entryKey (e : SVEntry) : List Int :=
  match parse_version e.version with
  | some p => kflat p
  | none => []

/-- The descending-sort relation of `specific_versions.sort(key=key,
reverse=True)`: `a` may precede `b` iff `not (key a < key b)`. -/
def entryGE (a b : SVEntry) : Prop := lexCmp (entryKey a) (entryKey b) ≠ .lt

instance : DecidableRel entryGE := fun a b => by unfold entryGE; infer_instance

instance : IsTotal SVEntry entryGE := by
  constructor
  intro a b
  unfold entryGE
  by_cases h : lexCmp (entryKey a) (entryKey b) = .lt
  · right
    rw [lexCmp_swap, h]
    decide
  · left; exact h

instance : IsTrans SVEntry entryGE := by
  constructor
  intro a b c hab hbc
  unfold entryGE at *
  intro hac
  rcases h1 : lexCmp (entryKey a) (entryKey b) with _ | _ | _
  · exact hab h1
  · have : entryKey a = entryKey b := lexCmp_eq_iff.mp h1
    rw [this] at hac
    exact hbc hac
  · rcases h2 : lexCmp (entryKey b) (entryKey c) with _ | _ | _
    · exact hbc h2
    · have : entryKey b = entryKey c := lexCmp_eq_iff.mp h2
      rw [← this] at hac
      rw [h1] at hac
      exact absurd hac (by decide)
    · have hba : lexCmp (entryKey b) (entryKey a) = .lt := by
        rw [lexCmp_swap, h1]; rfl
      have hcb : lexCmp (entryKey c) (entryKey b) = .lt := by
        rw [lexCmp_swap, h2]; rfl
      have hca : lexCmp (entryKey c) (entryKey a) = .lt := lexCmp_lt_trans hcb hba
      rw [lexCmp_swap, hca] at hac
      exact absurd hac (by decide)

/-- `specific_versions.sort(key=key, reverse=True)` (updater.py lines 92-95):
Python's stable descending sort by the parsed version key. -/
def sortEntriesDesc (l : List SVEntry) : List SVEntry := List.insertionSort entryGE l

/-- `Dash.append_version` (updater.py lines 66-97): if some existing entry's
raw `version` string equals the new version's raw name, return the list
unchanged; otherwise append the new entry and re-sort descending by the
parsed key. -/
def Dash.append_version (specific_versions : List SVEntry) (version : Version)
    (path : String) : List SVEntry :=
  if specific_versions.any (fun v => v.version == version.name) then specific_versions
  else sortEntriesDesc (specific_versions ++ [⟨version.name, path⟩])

/-- The list comprehension `[Version(v["version"]) for v in specific_versions]`
of `Dash.update_newest_version` (updater.py line 114); an unparsable entry
raises, modelled as `Except.error` with the offending string. -/
def parseEntries : List SVEntry → Except String (List Version)
  | [] => .ok []
  | e :: es =>
    match Version.mk? e.version with
    | none => .error e.version
    | some v =>
      match parseEntries es with
      | .error err => .error err
      | .ok vs => .ok (v :: vs)

/-- `Dash.update_newest_version` (updater.py lines 99-143): parse all manifest
entries, take the stable subset sorted ascending; if it is empty, or its
maximum has no `Version.__eq__`-equal version among this run's
`updated_versions`, return the manifest unchanged with no copy; otherwise
copy that artifact (returned as the second component) and set the manifest's
current-version field to the maximum stable version's raw name. -/
def Dash.update_newest_version (j : DocsetJson)
    (updated_versions : List (Version × List String)) :
    Except String (DocsetJson × Option (List String)) :=
  match parseEntries j.specific_versions with
  | .error e => .error e
  | .ok versions =>
    let stable_versions := sortV (versions.filter (fun v => v.is_stable))
    match stable_versions.getLast? with
    | none => .ok (j, none)
    | some latest =>
      match updated_versions.find? (fun vp => Version.eq vp.1 latest) with
      | none => .ok (j, none)
      | some vp => .ok ({ j with version := some latest.name }, some vp.2)

/-! ## Manifest file writes (updater.py lines 55-64 and 110-143)

Both `Dash.add_version` and `Dash.update_newest_version` open `docset.json`
in `r+` mode, `json.load` it (reading to the end), `seek(0)`, and `json.dump`
the updated object without truncating the file. -/

/-- The file content after `open(p, "r+")`, `seek(0)`, write of `new`: the new
bytes overwrite the front of the old content and any remaining old bytes
survive past the end of the write. -/
def Dash.manifest_write (old new : List Char) : List Char :=
  new ++ old.drop new.length

/-- The opening-brace and closing-brace characters. -/
def lbrace : Char := '\x7b'

def rbrace : Char := '\x7d'

def isJsonWs (c : Char) : Bool := c = ' ' || c = '\t' || c = '\n' || c = '\r'

def isNumChar (c : Char) : Bool :=
  c.isDigit || c = '-' || c = '+' || c = '.' || c = 'e' || c = 'E'

/-- Frames of the JSON pushdown scanner: an open object or an open array. -/
inductive JFrame
  | obj
  | arr
  deriving DecidableEq

/-- States of the JSON document scanner.  `afterValue []` is the state after a
complete top-level value. -/
inductive JState
  | value (stk : List JFrame)
  | afterValue (stk : List JFrame)
  | str (stk : List JFrame) (isKey : Bool) (esc : Bool)
  | key (stk : List JFrame)
  | afterKey (stk : List JFrame)
  | num (stk : List JFrame)
  | lit (stk : List JFrame)
  deriving DecidableEq

/-- Transition taken after a value has ended and a structural character is
read. -/
def stepAfter (stk : List JFrame) (c : Char) : Option JState :=
  if isJsonWs c then some (.afterValue stk)
  else if c = ',' then
    match stk with
    | .obj :: _ => some (.key stk)
    | .arr :: _ => some (.value stk)
    | [] => none
  else if c = rbrace then
    match stk with
    | .obj :: s => some (.afterValue s)
    | _ => none
  else if c = ']' then
    match stk with
    | .arr :: s => some (.afterValue s)
    | _ => none
  else none

/-- One character of JSON scanning; `none` is a syntax error.  The scanner is
permissive (it accepts a superset of JSON), so its rejections are sound:
a rejected document is not valid JSON. -/
def jstep (st : JState) (c : Char) : Option JState :=
  match st with
  | .value stk =>
    if isJsonWs c then some (.value stk)
    else if c = lbrace then some (.key (.obj :: stk))
    else if c = '[' then some (.value (.arr :: stk))
    else if c = '"' then some (.str stk false false)
    else if isNumChar c then some (.num stk)
    else if c.isAlpha then some (.lit stk)
    else if c = ']' then
      match stk with
      | .arr :: s => some (.afterValue s)
      | _ => none
    else none
  | .afterValue stk => if isJsonWs c then some (.afterValue stk) else stepAfter stk c
  | .num stk => if isNumChar c then some (.num stk) else stepAfter stk c
  | .lit stk => if c.isAlpha then some (.lit stk) else stepAfter stk c
  | .str stk isKey esc =>
    if esc then some (.str stk isKey false)
    else if c = '\\' then some (.str stk isKey true)
    else if c = '"' then (if isKey then some (.afterKey stk) else some (.afterValue stk))
    else some (.str stk isKey false)
  | .key stk =>
    if isJsonWs c then some (.key stk)
    else if c = '"' then some (.str stk true false)
    else if c = rbrace then
      match stk with
      | .obj :: s => some (.afterValue s)
      | _ => none
    else none
  | .afterKey stk =>
    if isJsonWs c then some (.afterKey stk)
    else if c = ':' then some (.value stk)
    else none

def jscan (cs : List Char) : Option JState :=
  cs.foldl (fun os c => os.bind (fun st => jstep st c)) (some (.value []))

def jaccept : Option JState → Bool
  | some (.afterValue []) => true
  | some (.num []) => true
  | some (.lit []) => true
  | _ => false

/-- A byte string is a valid JSON document only if the scanner accepts it. -/
def jsonValid (cs : List Char) : Bool := jaccept (jscan cs)

theorem jscan_append (a b : List Char) :
    jscan (a ++ b) = b.foldl (fun os c => os.bind (fun st => jstep st c)) (jscan a) := by
  unfold jscan
  rw [List.foldl_append]

theorem jfold_none (l : List Char) :
    l.foldl (fun os c => os.bind (fun st => jstep st c)) none = none := by
  induction l with
  | nil => rfl
  | cons c cs ih => simpa using ih

theorem jstep_done (c : Char) :
    jstep (.afterValue []) c = if isJsonWs c then some (.afterValue []) else none := by
  show (if isJsonWs c then some (JState.afterValue []) else stepAfter [] c) = _
  by_cases h : isJsonWs c
  · rw [if_pos h, if_pos h]
  · rw [if_neg h, if_neg h]
    unfold stepAfter
    rw [if_neg h]
    split_ifs <;> rfl

/-- Scanning from the done state dies on the first non-whitespace character. -/
theorem jscan_from_done_kill :
    ∀ l : List Char, (∃ c ∈ l, isJsonWs c = false) →
      l.foldl (fun os c => os.bind (fun st => jstep st c)) (some (.afterValue [])) = none := by
  intro l
  induction l with
  | nil => rintro ⟨c, hc, -⟩; exact absurd hc (List.not_mem_nil c)
  | cons a t ih =>
    rintro ⟨c, hc, hnws⟩
    have hstep : (some (JState.afterValue ([] : List JFrame))).bind (fun st => jstep st a)
        = jstep (.afterValue []) a := rfl
    by_cases ha : isJsonWs a
    · rw [List.foldl_cons, hstep, jstep_done, if_pos ha]
      apply ih
      rcases List.mem_cons.mp hc with rfl | h
      · rw [ha] at hnws; cases hnws
      · exact ⟨c, h, hnws⟩
    · rw [List.foldl_cons, hstep, jstep_done, if_neg ha]
      exact jfold_none t

/-! ## Concrete versions and states used by the claim instances -/

def v_0_11_0 : Version := (Version.mk? "0.11.0").get (by decide)

def v_1_0_0 : Version := (Version.mk? "1.0.0").get (by decide)

def v_1_1_0 : Version := (Version.mk? "1.1.0").get (by decide)

def v_2_0_0 : Version := (Version.mk? "2.0.0").get (by decide)

def v_1_0 : Version := (Version.mk? "1.0").get (by decide)

def v_0_1_0 : Version := (Version.mk? "0.1.0").get (by decide)

/-- An initial Terraform updater state: empty pending list, empty ledger. -/
def terraformInitialState : TerraformState :=
  { versions := [],
    builder := { path := ["generator"], build_folder := "build", doc_name := "Terraform.tgz",
                 processed_versions := [], ledger_file := yaml_dump_versions [] } }

/-- The first `update()` call on the Terraform object: content-derived version
`0.11.0`, external build succeeding (exit code 0). -/
def terraformRun1 : List (Version × List String) × TerraformState :=
  Terraform.update v_0_11_0 (fun _ => 0) terraformInitialState

/-- The second `update()` call on the same object, with the repository content
unchanged (the derived version is still `0.11.0`, now in the ledger). -/
def terraformRun2 : List (Version × List String) × TerraformState :=
  Terraform.update v_0_11_0 (fun _ => 0) terraformRun1.2

/-! ## Claim theorems -/

/-- C3: for a source with minimum version 1.0.0, ledger exactly 1.0.0,
stability required, and local tags v0.9.0, v1.0.0, v1.1.0, v1.2.0-rc1, the
candidate list computed by `TagUpdater.check_updates` (with the v-stripping
`Packer.normalize_tag`) after normalizing, filtering by minimum version,
stability and ledger membership, and sorting ascending, is exactly the single
version 1.1.0. -/
theorem C3_tag_candidates :
    TagUpdater.check_updates Packer.normalize_tag v_1_0_0 true [v_1_0_0]
      ["refs/tags/v0.9.0", "refs/tags/v1.0.0", "refs/tags/v1.1.0", "refs/tags/v1.2.0-rc1"]
    = .ok [v_1_1_0] := rfl

/-- C9: `Kubernetes` implements neither the abstract `name` property nor the
abstract `build_version` method of `Documentation` (it defines
`update_version` instead, which `Documentation.update` never calls), so the
list of unimplemented abstract methods is nonempty and Python's ABC machinery
rejects instantiation with a `TypeError`; and even disregarding that check,
`Documentation.update` running with the inherited no-op `build_version` body
gets `None` for every candidate and returns the empty list. -/
theorem C9_kubernetes_unusable :
    kubernetesUnimplementedAbstract = ["name", "build_version"] ∧
    kubernetesUnimplementedAbstract ≠ [] ∧
    ∀ versions : List Version,
      Documentation.update versions Documentation.build_version_default = [] := by
  refine ⟨rfl, by decide, ?_⟩
  have h : ∀ (t : List Version) (acc : List (Version × List String)),
      t.foldl
        (fun updated version =>
          match Documentation.build_version_default version with
          | some path => updated ++ [(version, path)]
          | none => updated) acc = acc := by
    intro t
    induction t with
    | nil => intro acc; rfl
    | cons v ts ih => intro acc; rw [List.foldl_cons]; exact ih acc
  intro versions
  exact h versions []

/-- C1 evaluation: on the same `Terraform` object, after a first
`update()` run builds the content-derived version 0.11.0 and records it in
the ledger, a second `update()` with no new upstream content builds 0.11.0
again (the early return of `Terraform.check_updates` leaves the stale
`self.versions` list in place), appends a duplicate ledger entry, and changes
the ledger file — the second run is not a no-op. -/
theorem C1_terraform_second_run_rebuilds :
    terraformRun1.1 = [(v_0_11_0, ["generator", "build", "0.11.0", "Terraform.tgz"])] ∧
    terraformRun2.1 = [(v_0_11_0, ["generator", "build", "0.11.0", "Terraform.tgz"])] ∧
    terraformRun2.2.builder.processed_versions = [v_0_11_0, v_0_11_0] ∧
    terraformRun2.2.builder.ledger_file ≠ terraformRun1.2.builder.ledger_file := by
  refine ⟨rfl, rfl, rfl, by decide⟩

/-- C2: for every builder state, version and process outcome,
`BaseBuilder.build_version` returns the artifact path
`path/build_folder/version.name/doc_name` exactly when the external command's
exit code is 0, in which case the version is appended to the in-memory
processed list and the ledger file holds the rewritten serialization in the
returned state; for every nonzero exit code the state is unchanged, no path
is returned, and the captured stdout/stderr are surfaced as diagnostics. -/
theorem C2_build_contract (st : BuilderState) (version : Version) (process : ProcessResult) :
    (∀ p, (BaseBuilder.build_version st version process).2.1 = some p ↔
        process.returncode = 0 ∧ p = st.path ++ [st.build_folder, version.name, st.doc_name]) ∧
    (process.returncode = 0 →
      BaseBuilder.build_version st version process =
        ({ st with
            processed_versions := st.processed_versions ++ [version],
            ledger_file := ProcessedVersions.save_processed_versions
              (st.processed_versions ++ [version]) },
          some (st.path ++ [st.build_folder, version.name, st.doc_name]), [])) ∧
    (process.returncode ≠ 0 →
      BaseBuilder.build_version st version process
        = (st, none, [process.stdout, process.stderr])) := by
  by_cases h : process.returncode = 0
  · refine ⟨?_, fun _ => by simp [BaseBuilder.build_version, h], fun hn => absurd h hn⟩
    intro p
    simp only [BaseBuilder.build_version, if_pos h]
    constructor
    · intro hp
      exact ⟨h, (Option.some_inj.mp hp).symm⟩
    · rintro ⟨-, rfl⟩
      rfl
  · refine ⟨?_, fun h0 => absurd h0 h, fun _ => by simp [BaseBuilder.build_version, h]⟩
    intro p
    simp only [BaseBuilder.build_version, if_neg h]
    constructor
    · intro hp; exact absurd hp (by simp)
    · rintro ⟨h0, -⟩; exact absurd h0 h

/-- A small builder state used to instantiate C2. -/
def builderStateW : BuilderState :=
  { path := ["gen"], build_folder := "build", doc_name := "Doc.tgz",
    processed_versions := [], ledger_file := yaml_dump_versions [] }

/-- Witness for C2: at a concrete state, version and failing process (exit
code 1), `build_version` leaves the state untouched, returns no path and
surfaces the stdout/stderr pair. -/
theorem C2_build_contract_witness :
    BaseBuilder.build_version builderStateW v_1_0_0 ⟨1, "out", "err"⟩
      = (builderStateW, none, ["out", "err"]) :=
  (C2_build_contract builderStateW v_1_0_0 ⟨1, "out", "err"⟩).2.2 (by decide)

/-- A manifest entry for raw version string 1.0.0. -/
def entry_1_0_0 : SVEntry := ⟨"1.0.0", "versions/1.0.0/Doc.tgz"⟩

/-- C4 counterexample: `Version("1.0")` and `Version("1.0.0")` are equal by
parsed ordering key while their raw names differ, yet `Dash.append_version`
on a manifest already holding an entry for `1.0.0` appends a second entry for
`1.0` — the manifest uniqueness check compares raw strings, not Versions, so
the claim that such an addition does not create a second entry is false. -/
theorem C4_counterexample :
    Version.eq v_1_0 v_1_0_0 = true ∧
    v_1_0.name ≠ v_1_0_0.name ∧
    (Dash.append_version [entry_1_0_0] v_1_0 "versions/1.0/Doc.tgz").length = 2 := by
  refine ⟨by decide, by decide, by decide⟩

/-- C4 amended: `Version.__eq__` compares parsed ordering keys (1.0 equals
1.0.0), and ledger membership respects that equality (two key-equal versions
are interchangeable in `containsVersion`); but `Dash.append_version` keeps
`specific_versions` unique by raw version string only: a version whose raw
name already occurs is a no-op, while a version with an equal ordering key
but a different raw string is appended as a second entry. -/
theorem C4_amended (l : List Version) (a b : Version)
    (h : kflat a.version = kflat b.version) :
    Version.eq v_1_0 v_1_0_0 = true ∧
    containsVersion l a = containsVersion l b ∧
    (∀ (sv : List SVEntry) (v : Version) (p : String),
        sv.any (fun e => e.version == v.name) = true → Dash.append_version sv v p = sv) ∧
    (Dash.append_version [entry_1_0_0] v_1_0 "versions/1.0/Doc.tgz").length = 2 := by
  refine ⟨by decide, ?_, ?_, by decide⟩
  · unfold containsVersion Version.eq
    rw [h]
  · intro sv v p hany
    unfold Dash.append_version
    rw [if_pos hany]

/-- Witness for C4 amended, instantiated at the key-equal pair `1.0` and
`1.0.0` and the singleton ledger `[1.0.0]`. -/
theorem C4_amended_witness :
    Version.eq v_1_0 v_1_0_0 = true ∧
    containsVersion [v_1_0_0] v_1_0 = containsVersion [v_1_0_0] v_1_0_0 ∧
    (∀ (sv : List SVEntry) (v : Version) (p : String),
        sv.any (fun e => e.version == v.name) = true → Dash.append_version sv v p = sv) ∧
    (Dash.append_version [entry_1_0_0] v_1_0 "versions/1.0/Doc.tgz").length = 2 :=
  C4_amended [v_1_0_0] v_1_0 v_1_0_0 (by decide)

/-- The ledger file content before a save: the single version 1.0.0. -/
def ledger_old : String := "versions:\n- 1.0.0\n"

/-- An in-memory processed list in non-ascending order, reachable for the
Kubernetes updater (ledger seeded with 2.0.0, then a 1.0.0 build recorded). -/
def processedKub : List Version := [v_2_0_0, v_1_0_0]

/-- C5 counterexample: `Kubernetes._save_versions` writes the in-memory order
`2.0.0, 1.0.0` rather than the full set serialized ascending by ordering key,
so the ascending-serialization contract fails for the Kubernetes save path;
and the write path (`open(file, "w")` then a sequential write, used by every
save path) makes the truncated empty file visible mid-write, a state equal to
neither the old nor the new content, so the no-truncated-file-visible
contract fails as well. -/
theorem C5_counterexample :
    Kubernetes.save_versions processedKub
        ≠ yaml_dump_versions ((sortV processedKub).map Version.name) ∧
    [] ∈ truncateWriteStates ledger_old.data
        (ProcessedVersions.save_processed_versions processedKub).data ∧
    ([] : List Char) ≠ ledger_old.data ∧
    ([] : List Char) ≠ (ProcessedVersions.save_processed_versions processedKub).data := by
  refine ⟨by decide, by decide, by decide, by decide⟩

/-- C5 amended: `record` rewrites the whole persisted file with the full
processed set; `ProcessedVersions.save_processed_versions` (doc.py)
serializes the names ascending by ordering key (the sort it writes is sorted
under `verLE`), but `Kubernetes._save_versions` writes the in-memory order
without sorting (on the list `2.0.0, 1.0.0` the two outputs differ); and the
write opens the target file in truncating write mode and writes in place —
the truncated empty state is visible during every such write — rather than
writing to a temporary file and atomically replacing. -/
theorem C5_amended :
    (∀ processed : List Version, List.Sorted verLE (sortV processed)) ∧
    (∀ old new : List Char, [] ∈ truncateWriteStates old new) ∧
    ProcessedVersions.save_processed_versions processedKub
        = yaml_dump_versions ["1.0.0", "2.0.0"] ∧
    Kubernetes.save_versions processedKub = yaml_dump_versions ["2.0.0", "1.0.0"] ∧
    verLE v_1_0_0 v_2_0_0 ∧ ¬ verLE v_2_0_0 v_1_0_0 := by
  refine ⟨fun processed => List.sorted_insertionSort verLE processed, ?_,
    by decide, by decide, by decide, by decide⟩
  intro old new
  exact List.mem_cons_of_mem _ (List.mem_map.mpr ⟨0, by simp, List.take_zero new⟩)

/-- C7: `Dash.append_version` applied twice with the same (version, artifact)
pair equals one application (the second run finds the raw name present and is
a no-op on the entry list); and whenever the raw name is not yet present, the
result is exactly the old entries plus the new entry, re-sorted descending by
the parsed ordering key, holding exactly one entry with that raw name. -/
theorem C7_append_idempotent (sv : List SVEntry) (version : Version) (path : String) :
    Dash.append_version (Dash.append_version sv version path) version path
      = Dash.append_version sv version path ∧
    (sv.any (fun v => v.version == version.name) = false →
      Dash.append_version sv version path
          = sortEntriesDesc (sv ++ [⟨version.name, path⟩]) ∧
      ((Dash.append_version sv version path).filter
          (fun v => v.version == version.name)).length = 1) := by
  have happ : ∀ l : List SVEntry, l.any (fun v => v.version == version.name) = true →
      Dash.append_version l version path = l := by
    intro l hl
    unfold Dash.append_version
    rw [if_pos hl]
  have hnew : ∀ l : List SVEntry, l.any (fun v => v.version == version.name) = false →
      Dash.append_version l version path = sortEntriesDesc (l ++ [⟨version.name, path⟩]) := by
    intro l hl
    unfold Dash.append_version
    rw [if_neg (by rw [hl]; simp)]
  have hany2 : ∀ l : List SVEntry,
      (sortEntriesDesc (l ++ [⟨version.name, path⟩])).any
        (fun v => v.version == version.name) = true := by
    intro l
    apply List.any_eq_true.mpr
    exact ⟨⟨version.name, path⟩,
      (List.perm_insertionSort entryGE _).mem_iff.mpr (by simp), by simp⟩
  constructor
  · cases hb : sv.any (fun v => v.version == version.name) with
    | true => rw [happ sv hb, happ sv hb]
    | false => rw [hnew sv hb, happ _ (hany2 sv)]
  · intro h'
    refine ⟨hnew sv h', ?_⟩
    rw [hnew sv h']
    have hlen : ((sortEntriesDesc (sv ++ [(⟨version.name, path⟩ : SVEntry)])).filter
        (fun v => v.version == version.name)).length
        = ((sv ++ [(⟨version.name, path⟩ : SVEntry)]).filter
            (fun v => v.version == version.name)).length :=
      ((List.perm_insertionSort entryGE
          (sv ++ [(⟨version.name, path⟩ : SVEntry)])).filter _).length_eq
    rw [hlen, List.filter_append]
    have hnil : sv.filter (fun v => v.version == version.name) = [] := by
      rw [List.filter_eq_nil_iff]
      intro a ha hpa
      have h2 : sv.any (fun v => v.version == version.name) = true :=
        List.any_eq_true.mpr ⟨a, ha, hpa⟩
      rw [h'] at h2
      exact Bool.noConfusion h2
    rw [hnil]
    simp

/-- Witness for C7: with a manifest holding only an entry for 1.0.0 and the
new pair (1.1.0, artifact), both applications agree, the result is the
re-sorted two-entry list, and exactly one entry carries the raw name 1.1.0. -/
theorem C7_append_idempotent_witness :
    Dash.append_version (Dash.append_version [entry_1_0_0] v_1_1_0 "versions/1.1.0/Doc.tgz")
        v_1_1_0 "versions/1.1.0/Doc.tgz"
      = Dash.append_version [entry_1_0_0] v_1_1_0 "versions/1.1.0/Doc.tgz" ∧
    Dash.append_version [entry_1_0_0] v_1_1_0 "versions/1.1.0/Doc.tgz"
        = sortEntriesDesc ([entry_1_0_0] ++ [⟨v_1_1_0.name, "versions/1.1.0/Doc.tgz"⟩]) ∧
    ((Dash.append_version [entry_1_0_0] v_1_1_0 "versions/1.1.0/Doc.tgz").filter
        (fun v => v.version == v_1_1_0.name)).length = 1 :=
  ⟨(C7_append_idempotent [entry_1_0_0] v_1_1_0 "versions/1.1.0/Doc.tgz").1,
   ((C7_append_idempotent [entry_1_0_0] v_1_1_0 "versions/1.1.0/Doc.tgz").2 (by decide)).1,
   ((C7_append_idempotent [entry_1_0_0] v_1_1_0 "versions/1.1.0/Doc.tgz").2 (by decide)).2⟩

/-- The Version object parsed from the un-normalized tag name v1.0.0. -/
def v_ref_1_0_0 : Version := (Version.mk? "v1.0.0").get (by decide)

/-- C8 counterexample: the tag `bogus-tag` cannot be decomposed into version
segments, and `TagUpdater.check_updates` (whose per-tag loop calls the
Version constructor with no exception handling) aborts with that error
instead of skipping the tag and returning the candidates from the remaining
tags: the same inputs without the bad tag produce an ok candidate list. -/
theorem C8_counterexample :
    Version.mk? "bogus-tag" = none ∧
    TagUpdater.check_updates TagUpdater.normalize_tag v_0_1_0 false []
        ["refs/tags/v1.0.0", "refs/tags/bogus-tag"] = .error "bogus-tag" ∧
    TagUpdater.check_updates TagUpdater.normalize_tag v_0_1_0 false []
        ["refs/tags/v1.0.0"] = .ok [v_ref_1_0_0] :=
  ⟨rfl, rfl, rfl⟩

/-- C8 amended: a string that cannot be decomposed into the expected
semantic-version segments (here `bogus-tag`) makes the Version constructor
fail; in the tag-based pipeline that parse failure is not caught, so the
candidate is not skipped with a diagnostic: `check_updates` aborts with the
error, and tags after the failing one are never processed. -/
theorem C8_parse_failure_aborts :
    parse_version "bogus-tag" = none ∧
    Version.mk? "bogus-tag" = none ∧
    TagUpdater.check_updates TagUpdater.normalize_tag v_1_0_0 true [v_1_0_0]
        ["refs/tags/bogus-tag", "refs/tags/v1.1.0"] = .error "bogus-tag" :=
  ⟨rfl, rfl, rfl⟩

/-- Mutually `verLE`-related versions have equal flattened comparison keys. -/
theorem verLE_antisymm_key {a b : Version} (h1 : verLE a b) (h2 : verLE b a) :
    kflat a.version = kflat b.version := by
  unfold verLE vcmp at h1 h2
  rcases h : lexCmp (kflat a.version) (kflat b.version) with _ | _ | _
  · rw [lexCmp_swap, h] at h2
    simp [Ordering.swap] at h2
  · exact lexCmp_eq_iff.mp h
  · exact absurd h h1

/-- A successfully constructed Version keeps the raw string as its name. -/
theorem Version.mk?_name {s : String} {v : Version} (h : Version.mk? s = some v) :
    v.name = s := by
  unfold Version.mk? at h
  cases hp : parse_version s with
  | none => rw [hp] at h; cases h
  | some p =>
    rw [hp] at h
    injection h with h
    rw [← h]

/-- The versions parsed from manifest entries carry the entries' raw version
strings, position by position. -/
theorem parseEntries_names :
    ∀ (l : List SVEntry) (vs : List Version), parseEntries l = .ok vs →
      vs.map Version.name = l.map SVEntry.version := by
  intro l
  induction l with
  | nil =>
    intro vs h
    injection h with h
    rw [← h]
    rfl
  | cons e es ih =>
    intro vs h
    unfold parseEntries at h
    cases hm : Version.mk? e.version with
    | none => rw [hm] at h; cases h
    | some v =>
      rw [hm] at h
      cases hp : parseEntries es with
      | error err => rw [hp] at h; cases h
      | ok vs' =>
        rw [hp] at h
        injection h with h
        rw [← h, List.map_cons, List.map_cons, Version.mk?_name hm, ih vs' hp]

/-- C6: whenever `Dash.update_newest_version` returns (its entries all
parse), the manifest is either unchanged, or its current-version field is set
to the raw name of a maximum stable version among the parsed
`specific_versions` entries — a name present among the entries and stable —
and it is left unchanged both when no stable version exists among the entries
and when the maximum stable version has no equal version in this run's
`updated_versions`. -/
theorem C6_update_current_invariant (j : DocsetJson)
    (updated_versions : List (Version × List String)) (vs : List Version)
    (j' : DocsetJson) (act : Option (List String))
    (hparse : parseEntries j.specific_versions = .ok vs)
    (hrun : Dash.update_newest_version j updated_versions = .ok (j', act)) :
    (j' = j ∨
      ∃ v, v ∈ vs ∧ v.is_stable = true ∧
        (∀ w ∈ vs, w.is_stable = true → verLE w v) ∧
        (∃ e ∈ j.specific_versions, e.version = v.name) ∧
        j' = { j with version := some v.name }) ∧
    (vs.filter (fun v => v.is_stable) = [] → j' = j) ∧
    (∀ v, v ∈ vs → v.is_stable = true → (∀ w ∈ vs, w.is_stable = true → verLE w v) →
      (∀ vp ∈ updated_versions, Version.eq vp.1 v = false) → j' = j) := by
  have hrun' : Dash.update_newest_version j updated_versions =
      (match (sortV (vs.filter (fun v => v.is_stable))).getLast? with
       | none => .ok (j, none)
       | some latest =>
         match updated_versions.find? (fun vp => Version.eq vp.1 latest) with
         | none => .ok (j, none)
         | some vp => .ok ({ j with version := some latest.name }, some vp.2)) := by
    unfold Dash.update_newest_version
    rw [hparse]
  have hm := hrun'.symm.trans hrun
  cases hlast : (sortV (vs.filter (fun v => v.is_stable))).getLast? with
  | none =>
    rw [hlast] at hm
    injection hm with hm
    injection hm with h1 h2
    subst h1
    exact ⟨Or.inl rfl, fun _ => rfl, fun _ _ _ _ _ => rfl⟩
  | some latest =>
    rw [hlast] at hm
    have hm2 : (match updated_versions.find? (fun vp => Version.eq vp.1 latest) with
        | none => Except.ok (j, none)
        | some vp => Except.ok ({ j with version := some latest.name }, some vp.2))
        = Except.ok (j', act) := hm
    obtain ⟨hne, heq⟩ := List.mem_getLast?_eq_getLast hlast
    have hmemSorted : latest ∈ sortV (vs.filter (fun v => v.is_stable)) := by
      rw [heq]
      exact List.getLast_mem hne
    have hperm : (sortV (vs.filter (fun v => v.is_stable))).Perm
        (vs.filter (fun v => v.is_stable)) := List.perm_insertionSort verLE _
    have hmemStable : latest ∈ vs.filter (fun v => v.is_stable) :=
      hperm.mem_iff.mp hmemSorted
    obtain ⟨hvs, hstab⟩ := List.mem_filter.mp hmemStable
    have hmax : ∀ w ∈ vs, w.is_stable = true → verLE w latest := by
      intro w hw hstw
      have hwsorted : w ∈ sortV (vs.filter (fun v => v.is_stable)) :=
        hperm.mem_iff.mpr (List.mem_filter.mpr ⟨hw, hstw⟩)
      have hsorted : List.Sorted verLE (sortV (vs.filter (fun v => v.is_stable))) :=
        List.sorted_insertionSort verLE _
      have hrel := sorted_rel_getLast verLE_refl _ hne w hwsorted hsorted
      rw [← heq] at hrel
      exact hrel
    have hentry : ∃ e ∈ j.specific_versions, e.version = latest.name := by
      have hnames := parseEntries_names _ _ hparse
      have hmm : latest.name ∈ j.specific_versions.map SVEntry.version := by
        rw [← hnames]
        exact List.mem_map_of_mem Version.name hvs
      obtain ⟨e, he, hev⟩ := List.mem_map.mp hmm
      exact ⟨e, he, hev⟩
    cases hfind : updated_versions.find? (fun vp => Version.eq vp.1 latest) with
    | none =>
      rw [hfind] at hm2
      injection hm2 with hm2
      injection hm2 with h1 h2
      subst h1
      exact ⟨Or.inl rfl, fun _ => rfl, fun _ _ _ _ _ => rfl⟩
    | some vp =>
      rw [hfind] at hm2
      injection hm2 with hm2
      injection hm2 with h1 h2
      subst h1
      refine ⟨Or.inr ⟨latest, hvs, hstab, hmax, hentry, rfl⟩, ?_, ?_⟩
      · intro hnil
        rw [hnil] at hmemStable
        exact absurd hmemStable (List.not_mem_nil latest)
      · intro v hv hstv hmaxv hnone
        have h1 : verLE v latest := hmax v hv hstv
        have h2 : verLE latest v := hmaxv latest hvs hstab
        have hk : kflat v.version = kflat latest.version := verLE_antisymm_key h1 h2
        have hfound := List.find?_some hfind
        have hmemfind := List.mem_of_find?_eq_some hfind
        have hno := hnone vp hmemfind
        unfold Version.eq at hfound hno
        rw [hk, hfound] at hno
        exact Bool.noConfusion hno

/-- A concrete manifest with entries 1.1.0 and 1.0.0 and no current pointer. -/
def docsetJ0 : DocsetJson :=
  { version := none,
    specific_versions := [⟨"1.1.0", "versions/1.1.0/Doc.tgz"⟩, entry_1_0_0] }

/-- The updated-versions list of a run that produced 1.1.0. -/
def updatedW : List (Version × List String) := [(v_1_1_0, ["versions", "1.1.0", "Doc.tgz"])]

/-- The versions parsed from `docsetJ0`'s entries. -/
def parsedW : List Version := [v_1_1_0, v_1_0_0]

/-- Witness for C6: on the concrete manifest with entries 1.1.0 and 1.0.0 and
a run that produced 1.1.0, the update sets the current pointer to 1.1.0, a
stable maximum among the entries. -/
theorem C6_update_current_invariant_witness :
    ({ docsetJ0 with version := some "1.1.0" } = docsetJ0 ∨
      ∃ v, v ∈ parsedW ∧ v.is_stable = true ∧
        (∀ w ∈ parsedW, w.is_stable = true → verLE w v) ∧
        (∃ e ∈ docsetJ0.specific_versions, e.version = v.name) ∧
        ({ docsetJ0 with version := some "1.1.0" } : DocsetJson)
          = { docsetJ0 with version := some v.name }) ∧
    (parsedW.filter (fun v => v.is_stable) = [] →
      ({ docsetJ0 with version := some "1.1.0" } : DocsetJson) = docsetJ0) ∧
    (∀ v, v ∈ parsedW → v.is_stable = true →
      (∀ w ∈ parsedW, w.is_stable = true → verLE w v) →
      (∀ vp ∈ updatedW, Version.eq vp.1 v = false) →
      ({ docsetJ0 with version := some "1.1.0" } : DocsetJson) = docsetJ0) :=
  C6_update_current_invariant docsetJ0 updatedW parsedW
    { docsetJ0 with version := some "1.1.0" } (some ["versions", "1.1.0", "Doc.tgz"])
    rfl rfl

/-- C10: the manifest update writes through `r+`/`seek(0)` without
truncation, so the resulting file equals the new serialization exactly when
the new serialization is at least as long as the old content; whenever it is
strictly shorter, the nonempty tail of the old content survives past the new
serialization, and (the new serialization being a complete JSON document and
the residue containing a non-whitespace byte) the resulting file is rejected
by the JSON scanner, hence not a valid JSON document. -/
theorem C10_manifest_write (old new : List Char) :
    (Dash.manifest_write old new = new ↔ old.length ≤ new.length) ∧
    (new.length < old.length →
      Dash.manifest_write old new = new ++ old.drop new.length ∧
        old.drop new.length ≠ []) ∧
    (jscan new = some (.afterValue []) →
      (∃ c ∈ old.drop new.length, isJsonWs c = false) →
      jsonValid (Dash.manifest_write old new) = false) := by
  refine ⟨?_, fun h => ⟨rfl, ?_⟩, fun hdone hres => ?_⟩
  · unfold Dash.manifest_write
    constructor
    · intro h
      have hlen := congrArg List.length h
      rw [List.length_append, List.length_drop] at hlen
      omega
    · intro h
      have hd : old.drop new.length = [] := List.drop_eq_nil_of_le h
      rw [hd, List.append_nil]
  · intro hnil
    rw [List.drop_eq_nil_iff] at hnil
    omega
  · unfold jsonValid Dash.manifest_write
    rw [jscan_append, hdone, jscan_from_done_kill _ hres]
    rfl

/-- The serialized manifest on disk before the update (two fields). -/
def manifestOldChars : List Char := "\x7b\"a\": 1, \"b\": 2\x7d".data

/-- The strictly shorter serialized manifest the update writes (one field). -/
def manifestNewChars : List Char := "\x7b\"a\": 1\x7d".data

/-- Witness for C10 at concrete serializations: the resulting file differs
from the new serialization and is rejected by the JSON scanner. -/
theorem C10_manifest_write_witness :
    jsonValid (Dash.manifest_write manifestOldChars manifestNewChars) = false ∧
    Dash.manifest_write manifestOldChars manifestNewChars ≠ manifestNewChars := by
  constructor
  · exact (C10_manifest_write manifestOldChars manifestNewChars).2.2 (by decide) (by decide)
  · intro h
    exact absurd ((C10_manifest_write manifestOldChars manifestNewChars).1.mp h) (by decide)
